import Mathlib

/-!
Verification of the catalog binding validator
(`scripts/validate_catalog_binding.py`).

The script is embedded shallowly:

* JSON values produced by `json.loads` are modelled by `JValue`; the index
  document is represented by its parse result (`none` when `json.loads`
  raises `JSONDecodeError`, `some v` when it returns `v`).  JSON numbers are
  modelled as integers; no claim depends on float values.
* Python runtime faults that the script does not catch are modelled with
  `Except PyErr`; `pyGetD`, `pyIter`, `pyValues` and `setAdd` raise exactly
  where the corresponding Python attribute access, iteration or `set.add`
  would.
* The regular expressions of the script are embedded as hand-rolled
  matchers over `List Char`.  Each pattern is simple enough that the
  greedy-with-backtracking behaviour of the `re` engine collapses to a
  deterministic maximal-munch scan; the only place where backtracking is
  observable is the trailing `\s*$` (MULTILINE), which `wsEol` models
  exactly.  Character classes are modelled on their ASCII behaviour; all
  inputs appearing in the theorems below are ASCII.
* The file tree is a snapshot value: file lists appear in the traversal
  order `Path.rglob` yields, and file contents are `Except Unit String`
  (`Except.error` models a read that raises).
-/

/-- JSON value as returned by `json.loads`.  Object keys are unique, as
`json.loads` collapses duplicates. -/
inductive JValue : Type where
  | jnull : JValue
  | jbool : Bool → JValue
  | jnum : Int → JValue
  | jstr : String → JValue
  | jarr : List JValue → JValue
  | jobj : List (String × JValue) → JValue

/-- Python runtime faults that the script lets escape. -/
inductive PyErr : Type where
  | attributeError : PyErr
  | typeError : PyErr
deriving DecidableEq, Repr

/-- Python truthiness of a JSON value, as tested by `if pid:`. -/
def JValue.truthy : JValue → Bool
  | JValue.jnull => false
  | JValue.jbool b => b
  | JValue.jnum n => n ≠ 0
  | JValue.jstr s => s ≠ ""
  | JValue.jarr xs => !xs.isEmpty
  | JValue.jobj kvs => !kvs.isEmpty

/-- Hashable (and hence set-storable) Python values among JSON values:
`None`, booleans, numbers and strings.  Lists and dicts are unhashable. -/
def JValue.isScalar : JValue → Bool
  | JValue.jarr _ => false
  | JValue.jobj _ => false
  | _ => true

/-- Equality test used for set membership.  Members of the script's sets are
always scalars (unhashable values make `set.add` raise first), so equality
between scalars is all that is ever exercised; non-scalars compare unequal.
Python's cross-type numeric equality (`True == 1`) is not modelled; no claim
depends on it. -/
def JValue.scalarEq : JValue → JValue → Bool
  | JValue.jnull, JValue.jnull => true
  | JValue.jbool a, JValue.jbool b => a = b
  | JValue.jnum a, JValue.jnum b => a = b
  | JValue.jstr a, JValue.jstr b => a = b
  | _, _ => false

/-- First-match association lookup (object keys are unique). -/
def jLookup (kvs : List (String × JValue)) (k : String) : Option JValue :=
  match kvs with
  | [] => none
  | kv :: rest => if kv.1 = k then some kv.2 else jLookup rest k

/-- Python `data.get(k, default)`: raises `AttributeError` unless `data` is
a dict. -/
def pyGetD (v : JValue) (k : String) (d : JValue) : Except PyErr JValue :=
  match v with
  | JValue.jobj kvs => Except.ok ((jLookup kvs k).getD d)
  | _ => Except.error PyErr.attributeError

/-- Python `for x in v`: lists yield elements, strings yield one-character
strings, dicts yield their keys; other values raise `TypeError`. -/
def pyIter : JValue → Except PyErr (List JValue)
  | JValue.jarr xs => Except.ok xs
  | JValue.jstr s => Except.ok (s.data.map (fun c => JValue.jstr (String.mk [c])))
  | JValue.jobj kvs => Except.ok (kvs.map (fun kv => JValue.jstr kv.1))
  | _ => Except.error PyErr.typeError

/-- Python `v.values()`: raises `AttributeError` unless `v` is a dict. -/
def pyValues : JValue → Except PyErr (List JValue)
  | JValue.jobj kvs => Except.ok (kvs.map (fun kv => kv.2))
  | _ => Except.error PyErr.attributeError

/-- Python `ids.add(v)` on a set represented as a duplicate-free list in
insertion order: unhashable values raise `TypeError`. -/
def setAdd (ids : List JValue) (v : JValue) : Except PyErr (List JValue) :=
  match v with
  | JValue.jarr _ => Except.error PyErr.typeError
  | JValue.jobj _ => Except.error PyErr.typeError
  | _ => Except.ok (if ids.any (JValue.scalarEq v) then ids else ids ++ [v])

/-- `ids.add(s)` for a string, which never raises. -/
def setAddStr (ids : List JValue) (s : String) : List JValue :=
  if ids.any (JValue.scalarEq (JValue.jstr s)) then ids else ids ++ [JValue.jstr s]

/-! ### Character classes and regex building blocks -/

/-- ASCII behaviour of the regex class `\s`. -/
def isSpc (c : Char) : Bool :=
  c = ' ' || c = '\t' || c = '\n' || c = '\r' || c = '\x0b' || c = '\x0c'

/-- The identifier class `[a-z0-9-]`. -/
def isIdChar (c : Char) : Bool :=
  ('a' ≤ c && c ≤ 'z') || ('0' ≤ c && c ≤ '9') || c = '-'

/-- The identifier class under `re.IGNORECASE` (ASCII behaviour). -/
def isIdCharCI (c : Char) : Bool :=
  isIdChar c || ('A' ≤ c && c ≤ 'Z')

/-- The quote class `["']`. -/
def isQuote (c : Char) : Bool := c = '"' || c = '\x27'

/-- ASCII lowering, modelling `re.IGNORECASE` literal comparison. -/
def toLowerA (c : Char) : Char :=
  if 'A' ≤ c && c ≤ 'Z' then Char.ofNat (c.toNat + 32) else c

/-- Consume the optional quote of `["']?` (greedy; the only viable choice,
since a quote character can never satisfy what follows the option in the
patterns below). -/
def dropOptQuote (cs : List Char) : List Char :=
  match cs with
  | c :: rest => if isQuote c then rest else cs
  | [] => []

/-- Consume an exact literal. -/
def stripLit : List Char → List Char → Option (List Char)
  | [], cs => some cs
  | l :: ls, c :: cs => if c = l then stripLit ls cs else none
  | _ :: _, [] => none

/-- Consume a literal case-insensitively (`re.IGNORECASE`). -/
def stripLitCI : List Char → List Char → Option (List Char)
  | [], cs => some cs
  | l :: ls, c :: cs => if toLowerA c = l then stripLitCI ls cs else none
  | _ :: _, [] => none

/-- Suffix of a list starting at its last newline, if any. -/
def lastNLSuffix : List Char → Option (List Char)
  | [] => none
  | c :: rest =>
    match lastNLSuffix rest with
    | some s => some s
    | none => if c = '\n' then some (c :: rest) else none

/-- The pattern tail `\s*$` under `re.MULTILINE`: the greedy run of
whitespace backs off to the longest stop whose next character is a newline
or the end of input.  Returns the text after the match end. -/
def wsEol (cs : List Char) : Option (List Char) :=
  let r := cs.dropWhile isSpc
  if r.isEmpty then some []
  else
    match lastNLSuffix (cs.takeWhile isSpc) with
    | some s => some (s ++ r)
    | none => none

/-- The tail `\s*["']?([a-z0-9-]+)["']?\s*$` shared by the line-anchored
patterns.  Returns the captured group and the text after the match end. -/
def matchIdTail (cs : List Char) : Option (String × List Char) :=
  let cs := dropOptQuote (cs.dropWhile isSpc)
  let tok := cs.takeWhile isIdChar
  if tok.isEmpty then none
  else
    match wsEol (dropOptQuote (cs.dropWhile isIdChar)) with
    | some rest => some (String.mk tok, rest)
    | none => none

/-- The manifest pattern `^\s*-\s*id:\s*["']?([a-z0-9-]+)["']?\s*$`
(`re.MULTILINE`; the caller has checked `^`). -/
def matchDashIdLine (cs : List Char) : Option (String × List Char) :=
  match cs.dropWhile isSpc with
  | c :: cs =>
    if c = '-' then
      match stripLit "id:".data (cs.dropWhile isSpc) with
      | some cs => matchIdTail cs
      | none => none
    else none
  | [] => none

/-- The manifest patterns `^\s*pattern_id:\s*...$` and `^\s*provider:\s*...$`
(`re.MULTILINE`; the caller has checked `^`; the field literal is passed
in). -/
def matchKeyIdLine (key : String) (cs : List Char) : Option (String × List Char) :=
  match stripLit key.data (cs.dropWhile isSpc) with
  | some cs => matchIdTail cs
  | none => none

/-- The entry-file pattern `^id:\s*["']?([a-z0-9-]+)["']?\s*$`
(`re.MULTILINE`; no leading whitespace is allowed by this one). -/
def matchBareIdLine (cs : List Char) : Option (String × List Char) :=
  match stripLit "id:".data cs with
  | some cs => matchIdTail cs
  | none => none

/-- `re.finditer` for a `^`-anchored MULTILINE pattern: the match is
attempted at the start of the text and after every newline, left to right,
resuming after the end of each match.  The fuel argument dominates the
number of scan steps; callers pass `length + 1`, which suffices because
every step consumes at least one character. -/
def scanLines (m : List Char → Option (String × List Char)) :
    Nat → Bool → List Char → List String
  | 0, _, _ => []
  | _ + 1, _, [] => []
  | fuel + 1, atBol, c :: cs =>
    if atBol then
      match m (c :: cs) with
      | some (tok, rest) => tok :: scanLines m fuel false rest
      | none => scanLines m fuel (c = '\n') cs
    else scanLines m fuel (c = '\n') cs

/-- `re.search` for a `^`-anchored MULTILINE pattern: first match only. -/
def searchLines (m : List Char → Option (String × List Char)) :
    Nat → Bool → List Char → Option String
  | 0, _, _ => none
  | _ + 1, _, [] => none
  | fuel + 1, atBol, c :: cs =>
    if atBol then
      match m (c :: cs) with
      | some (tok, _) => some tok
      | none => searchLines m fuel (c = '\n') cs
    else searchLines m fuel (c = '\n') cs

/-- `re.finditer` for an unanchored pattern: the match is attempted at every
position, left to right, resuming after the end of each match. -/
def scanAll {α : Type} (m : List Char → Option (α × List Char)) :
    Nat → List Char → List α
  | 0, _ => []
  | _ + 1, [] => []
  | fuel + 1, c :: cs =>
    match m (c :: cs) with
    | some (a, rest) => a :: scanAll m fuel rest
    | none => scanAll m fuel cs

/-! ### File-tree snapshot -/

/-- One file under `catalog/patterns/`, as yielded by `rglob("*.yaml")`:
its file name and the result of `read_text` (`Except.error` models a read
that raises). -/
structure EntryFile : Type where
  name : String
  content : Except Unit String

/-- The catalog collaborator.  `index` is `none` when `catalog/index.json`
does not exist, `some none` when it exists but `json.loads` raises
`JSONDecodeError`, and `some (some v)` when it parses to `v`.
`patternsDir` is `none` when `catalog/patterns/` does not exist. -/
structure Catalog : Type where
  index : Option (Option JValue)
  patternsDir : Option (List EntryFile)

/-- One dependent document.  `path` is the path relative to the project
root (`rglob` only yields paths under it, so `relative_to` in the reporter
always applies). -/
structure Doc : Type where
  path : String
  content : Except Unit String

/-- The whole file-tree snapshot seen by one run: the catalog, the
`manifests/**/*.yaml` documents and the `specs/**/plan.md` documents, each
in deterministic traversal order, or `none` when the root is missing. -/
structure FsTree : Type where
  catalog : Catalog
  manifests : Option (List Doc)
  plans : Option (List Doc)

/-! ### Catalog Loader (`load_valid_pattern_ids`) -/

/-- Python `Path.stem`: drop the final suffix when the last dot sits
strictly inside the name. -/
def lastDotIdx : List Char → Option Nat
  | [] => none
  | c :: rest =>
    match lastDotIdx rest with
    | some i => some (i + 1)
    | none => if c = '.' then some 0 else none

/-- Python `Path(name).stem`. -/
def pathStem (name : String) : String :=
  match lastDotIdx name.data with
  | some i => if 0 < i ∧ i + 1 < name.data.length then String.mk (name.data.take i) else name
  | none => name

/-- One step of the index-entry loop: `pid = p.get("id"); if pid:
ids.add(pid)`. -/
def entryStep (ids : List JValue) (p : JValue) : Except PyErr (List JValue) := do
  let pid ← pyGetD p "id" JValue.jnull
  if pid.truthy then setAdd ids pid else pure ids

/-- Ids contributed by one list of index entries. -/
def entryIdsOf (ps : List JValue) (ids : List JValue) : Except PyErr (List JValue) :=
  List.foldlM entryStep ids ps

/-- One step of the legacy `categories` loop: a dict value contributes its
`patterns` entries, any other value contributes nothing. -/
def catStep (ids : List JValue) (cat : JValue) : Except PyErr (List JValue) :=
  match cat with
  | JValue.jobj _ => do
      let pats ← pyGetD cat "patterns" (JValue.jarr [])
      let ps ← pyIter pats
      entryIdsOf ps ids
  | _ => pure ids

/-- The index walk of `load_valid_pattern_ids`: the top-level `patterns`
array, then the legacy `patterns` lists under each `categories` value.
Faults of the walk (`AttributeError`, `TypeError`) propagate: the script
catches only `json.JSONDecodeError` and `KeyError`, and neither can arise
here (`dict.get` with a default never raises `KeyError`). -/
def indexIds (data : JValue) (ids : List JValue) : Except PyErr (List JValue) := do
  let pats ← pyGetD data "patterns" (JValue.jarr [])
  let ps ← pyIter pats
  let ids ← entryIdsOf ps ids
  let catsRaw ← pyGetD data "categories" JValue.jnull
  let vals ← pyValues (if catsRaw.truthy then catsRaw else JValue.jobj [])
  List.foldlM catStep ids vals

/-- The first `^id:` line of an entry file, as found by `re.search`. -/
def searchBareId (content : String) : Option String :=
  searchLines matchBareIdLine (content.data.length + 1) true content.data

/-- One step of the entry-file loop: the file's stem is added, then the
file's `id:` line when the file is readable and has one (`except
Exception: pass` swallows read faults after the stem was added). -/
def fileStep (ids : List JValue) (f : EntryFile) : List JValue :=
  let ids := setAddStr ids (pathStem f.name)
  match f.content with
  | Except.error _ => ids
  | Except.ok content =>
    match searchBareId content with
    | some pid => setAddStr ids pid
    | none => ids

/-- The entry-file scan of `load_valid_pattern_ids`. -/
def patternFileIds (files : List EntryFile) (ids : List JValue) : List JValue :=
  List.foldl fileStep ids files

/-- The `index.json` block of `load_valid_pattern_ids`, starting from the
empty set: an absent index contributes nothing, a parse failure is caught
(diagnostic to stderr, run continues with the set unchanged), and a parsed
index is walked by `indexIds` — whose structural faults escape. -/
def loadIndexPart (c : Catalog) : Except PyErr (List JValue) :=
  match c.index with
  | none => pure []
  | some none => pure []
  | some (some data) => indexIds data []

/-- `load_valid_pattern_ids(catalog_dir)`: the valid-identifier set, built
from the index document and then the entry files. -/
def load_valid_pattern_ids (c : Catalog) : Except PyErr (List JValue) := do
  let ids ← loadIndexPart c
  match c.patternsDir with
  | none => pure ids
  | some files => pure (patternFileIds files ids)

/-! ### Reference Collector -/

/-- Matches of `^\s*-\s*id:\s*["']?([a-z0-9-]+)["']?\s*$` over a document. -/
def scanDashIds (content : String) : List String :=
  scanLines matchDashIdLine (content.data.length + 1) true content.data

/-- Matches of `^\s*<key>\s*["']?([a-z0-9-]+)["']?\s*$` over a document
(used with the literals `pattern_id:` and `provider:`). -/
def scanKeyIds (key : String) (content : String) : List String :=
  scanLines (matchKeyIdLine key) (content.data.length + 1) true content.data

/-- Python `str.strip()` on its ASCII whitespace. -/
def pyStripWs (s : List Char) : List Char :=
  ((s.dropWhile isSpc).reverse.dropWhile isSpc).reverse

/-- Python `str.strip(c)`: remove every leading and trailing occurrence. -/
def pyStripCh (q : Char) (s : List Char) : List Char :=
  ((s.dropWhile (fun c => c = q)).reverse.dropWhile (fun c => c = q)).reverse

/-- Python `str.split(sep)` for a one-character separator. -/
def splitOnChar (sep : Char) (cs : List Char) : List (List Char) :=
  match cs with
  | [] => [[]]
  | c :: rest =>
    if c = sep then [] :: splitOnChar sep rest
    else
      match splitOnChar sep rest with
      | g :: gs => (c :: g) :: gs
      | [] => [[c]]

/-- One `from_catalog` list element: `item.strip().strip('"').strip("'")`. -/
def cleanItem (item : List Char) : String :=
  String.mk (pyStripCh '\x27' (pyStripCh '"' (pyStripWs item)))

/-- The comma-split, stripped, non-empty elements of one bracket group. -/
def fromCatalogItems (grp : String) : List String :=
  ((splitOnChar ',' grp.data).map cleanItem).filter (fun s => s ≠ "")

/-- The unanchored pattern `from_catalog:\s*\[([^\]]+)\]`: returns the raw
bracket group. -/
def matchFromCatalog (cs : List Char) : Option (String × List Char) :=
  match stripLit "from_catalog:".data cs with
  | some cs =>
    match cs.dropWhile isSpc with
    | '[' :: cs =>
      let grp := cs.takeWhile (fun c => c ≠ ']')
      if grp.isEmpty then none
      else
        match cs.dropWhile (fun c => c ≠ ']') with
        | ']' :: rest => some (String.mk grp, rest)
        | _ => none
    | _ => none
  | none => none

/-- All `from_catalog` elements of a document, in match order. -/
def scanFromCatalog (content : String) : List String :=
  (scanAll matchFromCatalog (content.data.length + 1) content.data).flatMap fromCatalogItems

/-- Case-insensitive alternation `(matched|auto-applied|selected)`, the
alternatives tried in pattern order; nothing follows the group, so the
first alternative that fits as a prefix wins. -/
def markerAt (cs : List Char) : Option (List Char) :=
  match stripLitCI "matched".data cs with
  | some rest => some rest
  | none =>
    match stripLitCI "auto-applied".data cs with
    | some rest => some rest
    | none => stripLitCI "selected".data cs

/-- The unanchored plan pattern
`\|\s*[^|]+\s*\|\s*([a-z0-9-]+)\s*\|\s*(matched|auto-applied|selected)`
under `re.IGNORECASE`: a pipe, a non-empty pipe-free cell, a pipe, the
captured identifier token (case-insensitive, so uppercase letters are
admitted), a pipe, then one of the markers as a prefix of what follows. -/
def matchPlanRow (cs : List Char) : Option (String × List Char) :=
  match cs with
  | '|' :: cs =>
    let cell := cs.takeWhile (fun c => c ≠ '|')
    if cell.isEmpty then none
    else
      match cs.dropWhile (fun c => c ≠ '|') with
      | '|' :: cs =>
        let cs := cs.dropWhile isSpc
        let tok := cs.takeWhile isIdCharCI
        if tok.isEmpty then none
        else
          match (cs.dropWhile isIdCharCI).dropWhile isSpc with
          | '|' :: cs =>
            match markerAt (cs.dropWhile isSpc) with
            | some rest => some (String.mk tok, rest)
            | none => none
          | _ => none
      | _ => none
  | _ => none

/-- All plan-table identifier tokens of a document, in match order. -/
def scanPlanIds (content : String) : List String :=
  scanAll matchPlanRow (content.data.length + 1) content.data

/-- The four context scans of one manifest document, concatenated in the
order the script runs them. -/
def manifestDocIds (content : String) : List String :=
  scanDashIds content ++ scanKeyIds "pattern_id:" content
    ++ scanKeyIds "provider:" content ++ scanFromCatalog content

/-- `collect_used_pattern_ids_from_manifests(manifests_dir)`: references
from every manifest, tagged with the source document; unreadable documents
are skipped with a diagnostic. -/
def collect_used_pattern_ids_from_manifests (dir : Option (List Doc)) :
    List (String × String) :=
  match dir with
  | none => []
  | some docs =>
    docs.flatMap
      (fun d =>
        match d.content with
        | Except.error _ => []
        | Except.ok content => (manifestDocIds content).map (fun pid => (d.path, pid)))

/-- `collect_used_pattern_ids_from_plans(specs_dir)`. -/
def collect_used_pattern_ids_from_plans (dir : Option (List Doc)) :
    List (String × String) :=
  match dir with
  | none => []
  | some docs =>
    docs.flatMap
      (fun d =>
        match d.content with
        | Except.error _ => []
        | Except.ok content => (scanPlanIds content).map (fun pid => (d.path, pid)))

/-! ### Reconciler and Reporter (`main`) -/

/-- The validation loop of `main`: keep, in input order, every reference
whose identifier is not in the valid set (`pid not in valid_ids`). -/
def computeErrors (valid : List JValue) : List (String × String) → List (String × String)
  | [] => []
  | r :: rest =>
    if valid.any (JValue.scalarEq (JValue.jstr r.2)) then computeErrors valid rest
    else r :: computeErrors valid rest

/-- String member test. -/
def JValue.isStr : JValue → Bool
  | JValue.jstr _ => true
  | _ => false

/-- The string of a string member. -/
def JValue.strOf : JValue → String
  | JValue.jstr s => s
  | _ => ""

/-- Values comparable as numbers by Python's `<` (booleans are ints). -/
def JValue.numKeyOk : JValue → Bool
  | JValue.jnum _ => true
  | JValue.jbool _ => true
  | _ => false

/-- The numeric sort key. -/
def JValue.numKey : JValue → Int
  | JValue.jnum n => n
  | JValue.jbool b => if b then 1 else 0
  | _ => 0

/-- The strings of an all-string member list. -/
def strVals (xs : List JValue) : List String := xs.map JValue.strOf

/-- Python `sorted` on the valid set: total on all-string or all-numeric
inputs, `TypeError` on any other input of length at least two (Python's
`<` is undefined across those types and on `None`). -/
def pySorted (xs : List JValue) : Except PyErr (List JValue) :=
  match xs with
  | [] => Except.ok []
  | [x] => Except.ok [x]
  | _ =>
    if xs.all JValue.isStr then
      Except.ok ((List.insertionSort (fun a b : String => a ≤ b) (strVals xs)).map JValue.jstr)
    else if xs.all JValue.numKeyOk then
      Except.ok (List.insertionSort (fun a b : JValue => a.numKey ≤ b.numKey) xs)
    else Except.error PyErr.typeError

/-- Python `print` rendering of a set member. -/
def JValue.render : JValue → String
  | JValue.jstr s => s
  | JValue.jnum n => toString n
  | JValue.jbool b => if b then "True" else "False"
  | JValue.jnull => "None"
  | JValue.jarr _ => ""
  | JValue.jobj _ => ""

/-- The report-and-exit tail of `main`, as a pure function from the
collected references and the valid set to the stdout lines and the exit
code.  When `sorted(valid_ids)` raises, the whole call is an error (the
lines printed before the raise are not modelled; no claim depends on
them). -/
def renderReport (used : List (String × String)) (valid : List JValue) :
    Except PyErr (List String × Nat) :=
  let errors := computeErrors valid used
  if errors.isEmpty then
    if used.isEmpty then
      Except.ok (["[OK] No pattern ID references found to validate."], 0)
    else
      Except.ok (["[OK] All " ++ toString used.length ++ " pattern ID references are valid."], 0)
  else do
    let sorted ← pySorted valid
    Except.ok
      (("[ERROR] Unknown pattern IDs found:"
          :: errors.map (fun e => "  - \x27" ++ e.2 ++ "\x27 in " ++ e.1))
        ++ [""] ++ ["Available pattern IDs:"]
        ++ (sorted.take 20).map (fun v => "  - " ++ v.render)
        ++ (if valid.length > 20 then
              ["  ... and " ++ toString (valid.length - 20) ++ " more"]
            else []), 1)

/-- The references collected by one run, manifests first, plans second. -/
def collectAllRefs (t : FsTree) : List (String × String) :=
  collect_used_pattern_ids_from_manifests t.manifests
    ++ collect_used_pattern_ids_from_plans t.plans

/-- The whole non-verbose run of `main` over a file-tree snapshot:
stdout lines and exit code, or the Python fault that escaped. -/
def mainRun (t : FsTree) : Except PyErr (List String × Nat) := do
  let valid ← load_valid_pattern_ids t.catalog
  renderReport (collectAllRefs t) valid

/-! ### Stream views of the valid set (for the union characterisation) -/

/-- The id contributed by one index entry, if any: entries that are not
dicts contribute nothing here (on them the loader raises instead, so the
distinction is invisible once the load succeeded); an absent, `None` or
otherwise falsy id is skipped. -/
def entryIdOf (p : JValue) : Option JValue :=
  match pyGetD p "id" JValue.jnull with
  | Except.ok pid => if pid.truthy then some pid else none
  | Except.error _ => none

/-- The element list of a value, empty when iteration would raise. -/
def iterOrNil (v : JValue) : List JValue :=
  match pyIter v with
  | Except.ok xs => xs
  | Except.error _ => []

/-- Stream (a): ids of the index's top-level `patterns` list. -/
def topStreamData (data : JValue) : List JValue :=
  match pyGetD data "patterns" (JValue.jarr []) with
  | Except.ok pats => (iterOrNil pats).filterMap entryIdOf
  | Except.error _ => []

/-- The ids contributed by one `categories` value. -/
def catContrib (cat : JValue) : List JValue :=
  match cat with
  | JValue.jobj _ =>
    match pyGetD cat "patterns" (JValue.jarr []) with
    | Except.ok pats => (iterOrNil pats).filterMap entryIdOf
    | Except.error _ => []
  | _ => []

/-- Stream (b): ids of the legacy nested category groups. -/
def catStreamData (data : JValue) : List JValue :=
  match pyGetD data "categories" JValue.jnull with
  | Except.ok catsRaw =>
    match pyValues (if catsRaw.truthy then catsRaw else JValue.jobj []) with
    | Except.ok vals => vals.flatMap catContrib
    | Except.error _ => []
  | Except.error _ => []

/-- Stream (a) of a catalog (empty when the index is absent or unparsed). -/
def streamIndexTop (c : Catalog) : List JValue :=
  match c.index with
  | some (some data) => topStreamData data
  | _ => []

/-- Stream (b) of a catalog. -/
def streamIndexCats (c : Catalog) : List JValue :=
  match c.index with
  | some (some data) => catStreamData data
  | _ => []

/-- Stream (c): every entry file's base name, whether or not the file is
readable. -/
def streamStems (c : Catalog) : List JValue :=
  match c.patternsDir with
  | some files => files.map (fun f => JValue.jstr (pathStem f.name))
  | none => []

/-- Stream (d): the first `id:` declaration line of each readable entry
file that has one. -/
def streamIdLines (c : Catalog) : List JValue :=
  match c.patternsDir with
  | some files =>
    files.filterMap
      (fun f =>
        match f.content with
        | Except.ok content => (searchBareId content).map JValue.jstr
        | Except.error _ => none)
  | none => []

/-- The per-file contribution of the entry-file loop: the stem, then the
id line when present. -/
def fileContrib (f : EntryFile) : List JValue :=
  JValue.jstr (pathStem f.name) ::
    (match f.content with
     | Except.ok content =>
       match searchBareId content with
       | some pid => [JValue.jstr pid]
       | none => []
     | Except.error _ => [])

/-! ### The claim-side view of the plan-table recogniser -/

/-- The identifier lexical rule of the specification: non-empty, lowercase
alphanumerics and hyphens only. -/
def isLexIdStr (s : String) : Bool := s ≠ "" && s.data.all isIdChar

/-- ASCII lowering of a string. -/
def lowerStr (s : String) : String := String.mk (s.data.map toLowerA)

/-- The acceptance markers named by the specification. -/
def acceptanceMarkers : List String := ["matched", "auto-applied", "selected"]

/-- Modelled from the claim's words, for comparison with `scanPlanIds`:
collect a reference exactly from table rows (lines) with at least two
pipe-delimited cells whose second cell is an identifier-shaped token and
where some later cell's value is one of the acceptance markers,
case-insensitively. -/
def claimPlanRowIds (content : String) : List String :=
  (splitOnChar '\x0a' content.data).flatMap
    (fun line =>
      let cells := ((splitOnChar '|' line).map (fun c => String.mk (pyStripWs c))).filter
        (fun c => c ≠ "")
      match cells with
      | _ :: c2 :: rest =>
        if isLexIdStr c2 && rest.any (fun c => acceptanceMarkers.contains (lowerStr c)) then
          [c2]
        else []
      | _ => [])

/-! ### Lemmas about the set operations -/

theorem scalarEq_iff {v w : JValue} (hv : v.isScalar = true) :
    JValue.scalarEq v w = true ↔ v = w := by
  cases v <;> cases w <;> simp_all [JValue.scalarEq, JValue.isScalar]

theorem anyScalarEq_iff {v : JValue} (hv : v.isScalar = true) (ids : List JValue) :
    ids.any (JValue.scalarEq v) = true ↔ v ∈ ids := by
  rw [List.any_eq_true]
  constructor
  · rintro ⟨x, hx, he⟩
    exact ((scalarEq_iff hv).mp he) ▸ hx
  · intro h
    exact ⟨v, h, (scalarEq_iff hv).mpr rfl⟩

theorem jstr_isScalar (s : String) : (JValue.jstr s).isScalar = true := rfl

theorem setAdd_isScalar {ids out : List JValue} {v : JValue}
    (h : setAdd ids v = Except.ok out) : v.isScalar = true := by
  cases v <;> simp_all [setAdd, JValue.isScalar]

theorem setAdd_mem {ids out : List JValue} {v : JValue}
    (h : setAdd ids v = Except.ok out) (x : JValue) :
    x ∈ out ↔ x ∈ ids ∨ x = v := by
  have hv := setAdd_isScalar h
  have hout : out = if ids.any (JValue.scalarEq v) then ids else ids ++ [v] := by
    cases v <;> simp_all [setAdd]
  by_cases hc : ids.any (JValue.scalarEq v) = true
  · have hvin : v ∈ ids := (anyScalarEq_iff hv ids).mp hc
    subst hout
    simp only [hc, if_true]
    constructor
    · exact fun h => Or.inl h
    · rintro (h | rfl)
      · exact h
      · exact hvin
  · subst hout
    simp only [hc, if_false, Bool.false_eq_true, List.mem_append, List.mem_singleton]

theorem setAddStr_mem (ids : List JValue) (s : String) (x : JValue) :
    x ∈ setAddStr ids s ↔ x ∈ ids ∨ x = JValue.jstr s := by
  unfold setAddStr
  by_cases hc : ids.any (JValue.scalarEq (JValue.jstr s)) = true
  · have hvin : JValue.jstr s ∈ ids := (anyScalarEq_iff (jstr_isScalar s) ids).mp hc
    simp only [hc, if_true]
    constructor
    · exact fun h => Or.inl h
    · rintro (h | rfl)
      · exact h
      · exact hvin
  · simp only [hc, if_false, Bool.false_eq_true, List.mem_append, List.mem_singleton]

/-! ### Lemmas about the reconciliation loop -/

theorem computeErrors_sublist (valid : List JValue) (used : List (String × String)) :
    (computeErrors valid used).Sublist used := by
  induction used with
  | nil => exact List.Sublist.refl []
  | cons r rest ih =>
    simp only [computeErrors]
    split
    · exact ih.cons r
    · exact ih.cons₂ r

theorem computeErrors_mem (valid : List JValue) (used : List (String × String))
    (r : String × String) :
    r ∈ computeErrors valid used ↔ r ∈ used ∧ JValue.jstr r.2 ∉ valid := by
  induction used with
  | nil => simp [computeErrors]
  | cons b rest ih =>
    simp only [computeErrors]
    by_cases hb : JValue.jstr b.2 ∈ valid
    · rw [if_pos ((anyScalarEq_iff (jstr_isScalar b.2) valid).mpr hb)]
      rw [ih]
      simp only [List.mem_cons]
      constructor
      · rintro ⟨hr, hnv⟩
        exact ⟨Or.inr hr, hnv⟩
      · rintro ⟨hr | hr, hnv⟩
        · exact absurd (hr ▸ hb) hnv
        · exact ⟨hr, hnv⟩
    · rw [if_neg (fun hc => hb ((anyScalarEq_iff (jstr_isScalar b.2) valid).mp hc))]
      simp only [List.mem_cons, ih]
      constructor
      · rintro (rfl | ⟨hr, hnv⟩)
        · exact ⟨Or.inl rfl, hb⟩
        · exact ⟨Or.inr hr, hnv⟩
      · rintro ⟨hr | hr, hnv⟩
        · exact Or.inl hr
        · exact Or.inr ⟨hr, hnv⟩

theorem computeErrors_count_valid (valid : List JValue) (used : List (String × String))
    (r : String × String) (h : JValue.jstr r.2 ∈ valid) :
    (computeErrors valid used).count r = 0 := by
  rw [List.count_eq_zero]
  intro hr
  exact ((computeErrors_mem valid used r).mp hr).2 h

theorem computeErrors_count_invalid (valid : List JValue) (used : List (String × String))
    (r : String × String) (h : JValue.jstr r.2 ∉ valid) :
    (computeErrors valid used).count r = used.count r := by
  induction used with
  | nil => rfl
  | cons b rest ih =>
    simp only [computeErrors]
    by_cases hb : JValue.jstr b.2 ∈ valid
    · rw [if_pos ((anyScalarEq_iff (jstr_isScalar b.2) valid).mpr hb)]
      have hbr : (b == r) = false := by
        rcases Bool.eq_false_or_eq_true (b == r) with ht | hf
        · exact absurd ((eq_of_beq ht) ▸ hb) h
        · exact hf
      rw [List.count_cons, hbr, ih]
      simp
    · rw [if_neg (fun hc => hb ((anyScalarEq_iff (jstr_isScalar b.2) valid).mp hc))]
      rw [List.count_cons, List.count_cons, ih]

theorem computeErrors_eq_nil_iff (valid : List JValue) (used : List (String × String)) :
    computeErrors valid used = [] ↔ ∀ r ∈ used, JValue.jstr r.2 ∈ valid := by
  rw [List.eq_nil_iff_forall_not_mem]
  constructor
  · intro h r hr
    by_contra hnv
    exact h r ((computeErrors_mem valid used r).mpr ⟨hr, hnv⟩)
  · intro h r hr
    obtain ⟨hru, hnv⟩ := (computeErrors_mem valid used r).mp hr
    exact hnv (h r hru)

/-- C1: reconciliation is exact and order-preserving.  The failures list of
the validation loop is a subsequence of the input reference list (hence in
input order), a reference belongs to it exactly when its identifier is not
a member of the valid set, with exact multiplicity, and an empty reference
list yields zero failures. -/
theorem reconcile_exact_and_ordered (valid : List JValue) (used : List (String × String)) :
    computeErrors valid [] = []
    ∧ (computeErrors valid used).Sublist used
    ∧ (∀ r : String × String,
        r ∈ computeErrors valid used ↔ r ∈ used ∧ JValue.jstr r.2 ∉ valid)
    ∧ (∀ r : String × String, JValue.jstr r.2 ∈ valid →
        (computeErrors valid used).count r = 0)
    ∧ (∀ r : String × String, JValue.jstr r.2 ∉ valid →
        (computeErrors valid used).count r = used.count r) :=
  ⟨rfl, computeErrors_sublist valid used, computeErrors_mem valid used,
    fun r h => computeErrors_count_valid valid used r h,
    fun r h => computeErrors_count_invalid valid used r h⟩

/-- Witness for `reconcile_exact_and_ordered` at a concrete valid set and
reference list. -/
theorem reconcile_exact_and_ordered_witness :
    (computeErrors [JValue.jstr "a"] [("m.yaml", "a"), ("m.yaml", "b")]).count ("m.yaml", "a") = 0
    ∧ (computeErrors [JValue.jstr "a"] [("m.yaml", "a"), ("m.yaml", "b")]).count ("m.yaml", "b")
        = List.count ("m.yaml", "b") [("m.yaml", "a"), ("m.yaml", "b")] :=
  ⟨(reconcile_exact_and_ordered [JValue.jstr "a"] [("m.yaml", "a"), ("m.yaml", "b")]).2.2.2.1
      ("m.yaml", "a") (by simp),
   (reconcile_exact_and_ordered [JValue.jstr "a"] [("m.yaml", "a"), ("m.yaml", "b")]).2.2.2.2
      ("m.yaml", "b") (by simp)⟩

/-! ### The process outcome -/

theorem renderReport_ok_exit (used : List (String × String)) (valid : List JValue)
    (out : List String × Nat) (h : renderReport used valid = Except.ok out) :
    (out.2 = 0 ↔ computeErrors valid used = [])
    ∧ (out.2 = 1 ↔ computeErrors valid used ≠ []) := by
  simp only [renderReport] at h
  split at h
  · rename_i hemp
    have hnil : computeErrors valid used = [] := List.isEmpty_iff.mp hemp
    split at h
    · cases h
      simp [hnil]
    · cases h
      simp [hnil]
  · rename_i hemp
    have hne : computeErrors valid used ≠ [] := by
      intro hc
      exact hemp (by simp [hc])
    cases hs : pySorted valid with
    | error e => rw [hs] at h; cases h
    | ok sorted =>
      rw [hs] at h
      replace h : (Except.ok (("[ERROR] Unknown pattern IDs found:"
          :: (computeErrors valid used).map (fun e => "  - \x27" ++ e.2 ++ "\x27 in " ++ e.1))
        ++ [""] ++ ["Available pattern IDs:"]
        ++ (sorted.take 20).map (fun v => "  - " ++ v.render)
        ++ (if valid.length > 20 then
              ["  ... and " ++ toString (valid.length - 20) ++ " more"]
            else []), 1) : Except PyErr (List String × Nat)) = Except.ok out := h
      cases h
      simp [hne]

theorem mainRun_report (t : FsTree) (valid : List JValue) (out : List String × Nat)
    (hl : load_valid_pattern_ids t.catalog = Except.ok valid)
    (hr : mainRun t = Except.ok out) :
    renderReport (collectAllRefs t) valid = Except.ok out := by
  unfold mainRun at hr
  rw [hl] at hr
  simpa using hr

/-- C2: on every run that completes (no uncaught fault), the exit code is
binary and determined solely by the failures: 0 exactly when every
collected reference's identifier is in the valid set (including the
vacuous case of zero references), 1 exactly when at least one is not. -/
theorem exit_code_binary_iff (t : FsTree) (valid : List JValue) (out : List String × Nat)
    (hl : load_valid_pattern_ids t.catalog = Except.ok valid)
    (hr : mainRun t = Except.ok out) :
    (out.2 = 0 ↔ ∀ r ∈ collectAllRefs t, JValue.jstr r.2 ∈ valid)
    ∧ (out.2 = 1 ↔ ∃ r ∈ collectAllRefs t, JValue.jstr r.2 ∉ valid) := by
  have hex := renderReport_ok_exit (collectAllRefs t) valid out (mainRun_report t valid out hl hr)
  constructor
  · rw [hex.1, computeErrors_eq_nil_iff]
  · rw [hex.2, Ne, computeErrors_eq_nil_iff]
    push_neg
    rfl

/-- Witness for `exit_code_binary_iff`: the empty snapshot loads an empty
valid set, reports the vacuous success and exits 0. -/
theorem exit_code_binary_iff_witness :
    ((["[OK] No pattern ID references found to validate."], 0).2 = 0
      ↔ ∀ r ∈ collectAllRefs ⟨⟨none, none⟩, none, none⟩,
          JValue.jstr r.2 ∈ ([] : List JValue))
    ∧ ((["[OK] No pattern ID references found to validate."], 0).2 = 1
      ↔ ∃ r ∈ collectAllRefs ⟨⟨none, none⟩, none, none⟩,
          JValue.jstr r.2 ∉ ([] : List JValue)) :=
  exit_code_binary_iff ⟨⟨none, none⟩, none, none⟩ []
    (["[OK] No pattern ID references found to validate."], 0) rfl rfl

/-- C3: the claim is right and the code is wrong.  A structurally
unexpected but syntactically valid index document — here the JSON text
`[]`, which parses to a top-level array — makes `data.get("patterns", [])`
raise `AttributeError`, which the `except (json.JSONDecodeError, KeyError)`
clause does not catch (`dict.get` with a default never raises `KeyError`,
so that clause can only catch parse failures), and the run dies before the
Reporter instead of emitting a diagnostic and continuing. -/
theorem malformed_index_raises :
    load_valid_pattern_ids ⟨some (some (JValue.jarr [])), none⟩
      = Except.error PyErr.attributeError := rfl

/-! ### Membership characterisation of the loaded valid set -/

theorem ok_bind {ε α β : Type} (a : α) (f : α → Except ε β) :
    (Except.ok a : Except ε α) >>= f = f a := rfl

theorem error_bind {ε α β : Type} (e : ε) (f : α → Except ε β) :
    (Except.error e : Except ε α) >>= f = Except.error e := rfl

theorem pure_eq_ok {ε α : Type} (a : α) : (pure a : Except ε α) = Except.ok a := rfl

theorem entryStep_ok_mem {acc out : List JValue} {p : JValue}
    (h : entryStep acc p = Except.ok out) (x : JValue) :
    x ∈ out ↔ x ∈ acc ∨ x ∈ (entryIdOf p).toList := by
  unfold entryStep at h
  cases hg : pyGetD p "id" JValue.jnull with
  | error e => rw [hg, error_bind] at h; cases h
  | ok pid =>
    rw [hg, ok_bind] at h
    have hid : entryIdOf p = if pid.truthy = true then some pid else none := by
      unfold entryIdOf
      rw [hg]
    by_cases ht : pid.truthy = true
    · rw [if_pos ht] at h
      rw [setAdd_mem h x, hid, if_pos ht]
      simp
    · rw [if_neg ht, pure_eq_ok] at h
      cases h
      rw [hid, if_neg ht]
      simp

theorem entryIdsOf_ok_mem {ps : List JValue} {acc out : List JValue}
    (h : entryIdsOf ps acc = Except.ok out) (x : JValue) :
    x ∈ out ↔ x ∈ acc ∨ x ∈ ps.filterMap entryIdOf := by
  unfold entryIdsOf at h
  induction ps generalizing acc with
  | nil =>
    rw [List.foldlM_nil, pure_eq_ok] at h
    cases h
    simp
  | cons p ps ih =>
    rw [List.foldlM_cons] at h
    cases he : entryStep acc p with
    | error e => rw [he, error_bind] at h; cases h
    | ok acc1 =>
      rw [he, ok_bind] at h
      rw [ih h, entryStep_ok_mem he x, List.filterMap_cons]
      cases hid : entryIdOf p <;> simp [or_assoc]

theorem catStep_ok_mem {acc out : List JValue} {cat : JValue}
    (h : catStep acc cat = Except.ok out) (x : JValue) :
    x ∈ out ↔ x ∈ acc ∨ x ∈ catContrib cat := by
  cases cat with
  | jobj kvs =>
    simp only [catStep] at h
    cases hg : pyGetD (JValue.jobj kvs) "patterns" (JValue.jarr []) with
    | error e => rw [hg, error_bind] at h; cases h
    | ok pats =>
      rw [hg, ok_bind] at h
      cases hi : pyIter pats with
      | error e => rw [hi, error_bind] at h; cases h
      | ok ps =>
        rw [hi, ok_bind] at h
        rw [entryIdsOf_ok_mem h x]
        simp only [catContrib, hg, iterOrNil, hi]
  | jnull => simp only [catStep, pure_eq_ok] at h; cases h; simp [catContrib]
  | jbool b => simp only [catStep, pure_eq_ok] at h; cases h; simp [catContrib]
  | jnum n => simp only [catStep, pure_eq_ok] at h; cases h; simp [catContrib]
  | jstr s => simp only [catStep, pure_eq_ok] at h; cases h; simp [catContrib]
  | jarr xs => simp only [catStep, pure_eq_ok] at h; cases h; simp [catContrib]

theorem catFold_ok_mem {vals : List JValue} {acc out : List JValue}
    (h : List.foldlM catStep acc vals = Except.ok out) (x : JValue) :
    x ∈ out ↔ x ∈ acc ∨ x ∈ vals.flatMap catContrib := by
  induction vals generalizing acc with
  | nil =>
    rw [List.foldlM_nil, pure_eq_ok] at h
    cases h
    simp
  | cons cat vals ih =>
    rw [List.foldlM_cons] at h
    cases he : catStep acc cat with
    | error e => rw [he, error_bind] at h; cases h
    | ok acc1 =>
      rw [he, ok_bind] at h
      rw [ih h, catStep_ok_mem he x, List.flatMap_cons, List.mem_append, or_assoc]

theorem indexIds_ok_mem {data : JValue} {acc out : List JValue}
    (h : indexIds data acc = Except.ok out) (x : JValue) :
    x ∈ out ↔ x ∈ acc ∨ x ∈ topStreamData data ∨ x ∈ catStreamData data := by
  unfold indexIds at h
  cases h1 : pyGetD data "patterns" (JValue.jarr []) with
  | error e => rw [h1, error_bind] at h; cases h
  | ok pats =>
    rw [h1, ok_bind] at h
    cases h2 : pyIter pats with
    | error e => rw [h2, error_bind] at h; cases h
    | ok ps =>
      rw [h2, ok_bind] at h
      cases h3 : entryIdsOf ps acc with
      | error e => rw [h3, error_bind] at h; cases h
      | ok acc1 =>
        rw [h3, ok_bind] at h
        cases h4 : pyGetD data "categories" JValue.jnull with
        | error e => rw [h4, error_bind] at h; cases h
        | ok catsRaw =>
          rw [h4, ok_bind] at h
          cases h5 : pyValues (if catsRaw.truthy then catsRaw else JValue.jobj []) with
          | error e => rw [h5, error_bind] at h; cases h
          | ok vals =>
            rw [h5, ok_bind] at h
            rw [catFold_ok_mem h x, entryIdsOf_ok_mem h3 x]
            simp only [topStreamData, h1, iterOrNil, h2, catStreamData, h4, h5, or_assoc]

theorem fileStep_mem (acc : List JValue) (f : EntryFile) (x : JValue) :
    x ∈ fileStep acc f ↔ x ∈ acc ∨ x ∈ fileContrib f := by
  cases hc : f.content with
  | error e =>
    simp only [fileStep, fileContrib, hc]
    rw [setAddStr_mem]
    simp
  | ok content =>
    cases hs : searchBareId content with
    | none =>
      simp only [fileStep, fileContrib, hc, hs]
      rw [setAddStr_mem]
      simp
    | some pid =>
      simp only [fileStep, fileContrib, hc, hs]
      rw [setAddStr_mem, setAddStr_mem]
      simp [or_assoc]

theorem patternFileIds_mem (files : List EntryFile) (acc : List JValue) (x : JValue) :
    x ∈ patternFileIds files acc ↔ x ∈ acc ∨ x ∈ files.flatMap fileContrib := by
  unfold patternFileIds
  induction files generalizing acc with
  | nil => simp
  | cons f files ih =>
    rw [List.foldl_cons, ih, fileStep_mem, List.flatMap_cons, List.mem_append, or_assoc]

theorem fileContrib_split (files : List EntryFile) (x : JValue) :
    x ∈ files.flatMap fileContrib
      ↔ x ∈ files.map (fun f => JValue.jstr (pathStem f.name))
        ∨ x ∈ files.filterMap
            (fun f =>
              match f.content with
              | Except.ok content => (searchBareId content).map JValue.jstr
              | Except.error _ => none) := by
  simp only [List.mem_flatMap, List.mem_map, List.mem_filterMap]
  constructor
  · rintro ⟨f, hf, hx⟩
    unfold fileContrib at hx
    rcases List.mem_cons.mp hx with rfl | hx
    · exact Or.inl ⟨f, hf, rfl⟩
    · right
      refine ⟨f, hf, ?_⟩
      cases hc : f.content with
      | error e => rw [hc] at hx; cases hx
      | ok content =>
        rw [hc] at hx
        replace hx : x ∈ (match searchBareId content with
          | some pid => [JValue.jstr pid]
          | none => []) := hx
        show Option.map JValue.jstr (searchBareId content) = some x
        cases hs : searchBareId content with
        | none => rw [hs] at hx; cases hx
        | some pid =>
          rw [hs] at hx
          rcases List.mem_singleton.mp hx with rfl
          rfl
  · rintro (⟨f, hf, rfl⟩ | ⟨f, hf, hx⟩)
    · exact ⟨f, hf, List.mem_cons_self _ _⟩
    · refine ⟨f, hf, ?_⟩
      unfold fileContrib
      cases hc : f.content with
      | error e => rw [hc] at hx; cases hx
      | ok content =>
        rw [hc] at hx
        replace hx : Option.map JValue.jstr (searchBareId content) = some x := hx
        show x ∈ JValue.jstr (pathStem f.name) :: (match searchBareId content with
          | some pid => [JValue.jstr pid]
          | none => [])
        cases hs : searchBareId content with
        | none => rw [hs] at hx; cases hx
        | some pid =>
          rw [hs, Option.map_some'] at hx
          cases hx
          simp

theorem loadIndexPart_ok_mem {c : Catalog} {acc : List JValue}
    (h : loadIndexPart c = Except.ok acc) (x : JValue) :
    x ∈ acc ↔ x ∈ streamIndexTop c ∨ x ∈ streamIndexCats c := by
  unfold loadIndexPart at h
  cases hidx : c.index with
  | none =>
    rw [hidx] at h
    replace h : (pure [] : Except PyErr (List JValue)) = Except.ok acc := h
    rw [pure_eq_ok] at h
    cases h
    simp [streamIndexTop, streamIndexCats, hidx]
  | some parsed =>
    cases parsed with
    | none =>
      rw [hidx] at h
      replace h : (pure [] : Except PyErr (List JValue)) = Except.ok acc := h
      rw [pure_eq_ok] at h
      cases h
      simp [streamIndexTop, streamIndexCats, hidx]
    | some data =>
      rw [hidx] at h
      replace h : indexIds data [] = Except.ok acc := h
      rw [indexIds_ok_mem h x]
      simp [streamIndexTop, streamIndexCats, hidx]

/-- C4: when the load completes, the valid set is exactly the union of its
four provenance streams — (a) the index's top-level entry list, (b) the
legacy nested category groups (both index shapes contribute in the same
run), (c) the entry files' base names, and (d) the entry files' top-level
`id:` declaration lines — and every entry file's base name is a member even
when reading that file's content fails. -/
theorem load_ok_mem {c : Catalog} {ids : List JValue}
    (h : load_valid_pattern_ids c = Except.ok ids) (x : JValue) :
    x ∈ ids ↔ x ∈ streamIndexTop c ∨ x ∈ streamIndexCats c
      ∨ x ∈ streamStems c ∨ x ∈ streamIdLines c := by
  unfold load_valid_pattern_ids at h
  cases hip : loadIndexPart c with
  | error e => rw [hip, error_bind] at h; cases h
  | ok acc =>
    rw [hip, ok_bind] at h
    cases hdir : c.patternsDir with
    | none =>
      rw [hdir] at h
      replace h : (pure acc : Except PyErr (List JValue)) = Except.ok ids := h
      rw [pure_eq_ok] at h
      cases h
      rw [loadIndexPart_ok_mem hip x]
      simp [streamStems, streamIdLines, hdir, or_assoc]
    | some files =>
      rw [hdir] at h
      replace h :
          (pure (patternFileIds files acc) : Except PyErr (List JValue)) = Except.ok ids := h
      rw [pure_eq_ok] at h
      cases h
      rw [patternFileIds_mem, loadIndexPart_ok_mem hip x, fileContrib_split]
      simp only [streamStems, streamIdLines, hdir, or_assoc]

theorem validSet_union_of_streams (c : Catalog) (ids : List JValue)
    (h : load_valid_pattern_ids c = Except.ok ids) :
    (∀ x : JValue,
        x ∈ ids ↔ x ∈ streamIndexTop c ∨ x ∈ streamIndexCats c
          ∨ x ∈ streamStems c ∨ x ∈ streamIdLines c)
    ∧ (∀ files, c.patternsDir = some files →
        ∀ f ∈ files, JValue.jstr (pathStem f.name) ∈ ids) := by
  refine ⟨load_ok_mem h, ?_⟩
  intro files hdf f hf
  refine (load_ok_mem h (JValue.jstr (pathStem f.name))).mpr ?_
  refine Or.inr (Or.inr (Or.inl ?_))
  simp only [streamStems, hdf, List.mem_map]
  exact ⟨f, hf, rfl⟩

/-- Concrete catalog exercising all four streams: index entry `a`, legacy
category entry `b`, entry files `c.yaml` (readable, with an `id: d` line)
and `e.yaml` (unreadable). -/
def c4cat : Catalog :=
  ⟨some (some (JValue.jobj
      [("patterns", JValue.jarr [JValue.jobj [("id", JValue.jstr "a")]]),
       ("categories", JValue.jobj [("g", JValue.jobj
         [("patterns", JValue.jarr [JValue.jobj [("id", JValue.jstr "b")]])])])])),
    some [⟨"c.yaml", Except.ok "id: d
"⟩, ⟨"e.yaml", Except.error ()⟩]⟩

/-- Witness for `validSet_union_of_streams` at `c4cat`. -/
theorem validSet_union_of_streams_witness :
    JValue.jstr "e" ∈ [JValue.jstr "a", JValue.jstr "b", JValue.jstr "c",
        JValue.jstr "d", JValue.jstr "e"]
      ↔ JValue.jstr "e" ∈ streamIndexTop c4cat ∨ JValue.jstr "e" ∈ streamIndexCats c4cat
        ∨ JValue.jstr "e" ∈ streamStems c4cat ∨ JValue.jstr "e" ∈ streamIdLines c4cat :=
  (validSet_union_of_streams c4cat
      [JValue.jstr "a", JValue.jstr "b", JValue.jstr "c", JValue.jstr "d", JValue.jstr "e"]
      rfl).1 (JValue.jstr "e")

/-! ### Shape of the captured tokens -/

theorem stringMk_ne_empty {l : List Char} (h : l ≠ []) : String.mk l ≠ "" :=
  fun he => h (congrArg String.data he)

theorem takeWhile_all {p : Char → Bool} (l : List Char) :
    (l.takeWhile p).all p = true := by
  rw [List.all_eq_true]
  intro a ha
  exact List.mem_takeWhile_imp ha

theorem matchIdTail_tok {cs : List Char} {tok : String} {rest : List Char}
    (h : matchIdTail cs = some (tok, rest)) :
    tok ≠ "" ∧ tok.data.all isIdChar = true := by
  replace h :
      (if ((dropOptQuote (cs.dropWhile isSpc)).takeWhile isIdChar).isEmpty = true then none
       else
         match wsEol (dropOptQuote ((dropOptQuote (cs.dropWhile isSpc)).dropWhile isIdChar)) with
         | some rest => some (String.mk ((dropOptQuote (cs.dropWhile isSpc)).takeWhile isIdChar), rest)
         | none => none) = some (tok, rest) := h
  split at h
  · exact Option.noConfusion h
  · rename_i hne
    split at h
    · cases h
      refine ⟨stringMk_ne_empty ?_, takeWhile_all _⟩
      intro hl
      exact hne (by rw [hl]; rfl)
    · exact Option.noConfusion h

theorem matchDashIdLine_tok {cs : List Char} {tok : String} {rest : List Char}
    (h : matchDashIdLine cs = some (tok, rest)) :
    tok ≠ "" ∧ tok.data.all isIdChar = true := by
  unfold matchDashIdLine at h
  split at h
  · rename_i c cs2 heq
    split at h
    · split at h
      · exact matchIdTail_tok h
      · exact Option.noConfusion h
    · exact Option.noConfusion h
  · exact Option.noConfusion h

theorem matchKeyIdLine_tok {key : String} {cs : List Char} {tok : String} {rest : List Char}
    (h : matchKeyIdLine key cs = some (tok, rest)) :
    tok ≠ "" ∧ tok.data.all isIdChar = true := by
  unfold matchKeyIdLine at h
  split at h
  · exact matchIdTail_tok h
  · exact Option.noConfusion h

theorem matchBareIdLine_tok {cs : List Char} {tok : String} {rest : List Char}
    (h : matchBareIdLine cs = some (tok, rest)) :
    tok ≠ "" ∧ tok.data.all isIdChar = true := by
  unfold matchBareIdLine at h
  split at h
  · exact matchIdTail_tok h
  · exact Option.noConfusion h

theorem matchPlanRow_tok {cs : List Char} {tok : String} {rest : List Char}
    (h : matchPlanRow cs = some (tok, rest)) :
    tok ≠ "" ∧ tok.data.all isIdCharCI = true := by
  simp only [matchPlanRow] at h
  split at h
  · split at h
    · exact Option.noConfusion h
    · split at h
      · split at h
        · exact Option.noConfusion h
        · rename_i hne
          split at h
          · split at h
            · cases h
              refine ⟨stringMk_ne_empty ?_, takeWhile_all _⟩
              intro hl
              exact hne (by rw [hl]; rfl)
            · exact Option.noConfusion h
          · exact Option.noConfusion h
      · exact Option.noConfusion h
  · exact Option.noConfusion h

/-! ### From a scanned token back to a successful match -/

theorem scanLines_mem {m : List Char → Option (String × List Char)}
    {fuel : Nat} {b : Bool} {cs : List Char} {tok : String}
    (h : tok ∈ scanLines m fuel b cs) :
    ∃ cs1 rest, m cs1 = some (tok, rest) := by
  induction fuel generalizing b cs with
  | zero => simp [scanLines] at h
  | succ fuel ih =>
    cases cs with
    | nil => simp [scanLines] at h
    | cons c cs =>
      simp only [scanLines] at h
      by_cases hb : b = true
      · rw [if_pos hb] at h
        cases hm : m (c :: cs) with
        | none => rw [hm] at h; exact ih h
        | some pr =>
          rw [hm] at h
          rcases List.mem_cons.mp h with rfl | h
          · exact ⟨c :: cs, pr.2, by rw [hm]⟩
          · exact ih h
      · rw [if_neg hb] at h
        exact ih h

theorem searchLines_some {m : List Char → Option (String × List Char)}
    {fuel : Nat} {b : Bool} {cs : List Char} {tok : String}
    (h : searchLines m fuel b cs = some tok) :
    ∃ cs1 rest, m cs1 = some (tok, rest) := by
  induction fuel generalizing b cs with
  | zero => simp [searchLines] at h
  | succ fuel ih =>
    cases cs with
    | nil => simp [searchLines] at h
    | cons c cs =>
      simp only [searchLines] at h
      by_cases hb : b = true
      · rw [if_pos hb] at h
        cases hm : m (c :: cs) with
        | none => rw [hm] at h; exact ih h
        | some pr =>
          rw [hm] at h
          cases h
          exact ⟨c :: cs, pr.2, by rw [hm]⟩
      · rw [if_neg hb] at h
        exact ih h

theorem scanAll_mem {α : Type} {m : List Char → Option (α × List Char)}
    {fuel : Nat} {cs : List Char} {a : α}
    (h : a ∈ scanAll m fuel cs) :
    ∃ cs1 rest, m cs1 = some (a, rest) := by
  induction fuel generalizing cs with
  | zero => simp [scanAll] at h
  | succ fuel ih =>
    cases cs with
    | nil => simp [scanAll] at h
    | cons c cs =>
      simp only [scanAll] at h
      cases hm : m (c :: cs) with
      | none => rw [hm] at h; exact ih h
      | some pr =>
        rw [hm] at h
        rcases List.mem_cons.mp h with rfl | h
        · exact ⟨c :: cs, pr.2, by rw [hm]⟩
        · exact ih h

theorem scanDashIds_tok {s : String} {tok : String} (h : tok ∈ scanDashIds s) :
    isLexIdStr tok = true := by
  obtain ⟨cs1, rest, hm⟩ := scanLines_mem h
  obtain ⟨h1, h2⟩ := matchDashIdLine_tok hm
  simp [isLexIdStr, h1, h2]

theorem scanKeyIds_tok {key s : String} {tok : String} (h : tok ∈ scanKeyIds key s) :
    isLexIdStr tok = true := by
  obtain ⟨cs1, rest, hm⟩ := scanLines_mem h
  obtain ⟨h1, h2⟩ := matchKeyIdLine_tok hm
  simp [isLexIdStr, h1, h2]

theorem searchBareId_tok {s : String} {tok : String} (h : searchBareId s = some tok) :
    isLexIdStr tok = true := by
  obtain ⟨cs1, rest, hm⟩ := searchLines_some h
  obtain ⟨h1, h2⟩ := matchBareIdLine_tok hm
  simp [isLexIdStr, h1, h2]

theorem scanPlanIds_tok {s : String} {tok : String} (h : tok ∈ scanPlanIds s) :
    tok ≠ "" ∧ tok.data.all isIdCharCI = true := by
  obtain ⟨cs1, rest, hm⟩ := scanAll_mem h
  exact matchPlanRow_tok hm

/-- C5 counterexample: the code does not collect "exactly from table rows
whose second cell is the identifier and a later cell's value is a marker".
On `| a | b | c | matched |` the claim-shaped reading collects the second
cell `b`, while the script's regex matches the window `| c | matched` and
collects `c`; and on `| x | abc | matchedextra |` the claim collects
nothing (no cell's value equals a marker) while the regex accepts the
marker as a mere prefix and collects `abc`. -/
theorem plan_row_claim_counterexample :
    scanPlanIds "| a | b | c | matched |" = ["c"]
    ∧ claimPlanRowIds "| a | b | c | matched |" = ["b"]
    ∧ scanPlanIds "| x | abc | matchedextra |" = ["abc"]
    ∧ claimPlanRowIds "| x | abc | matchedextra |" = [] :=
  ⟨rfl, rfl, rfl, rfl⟩

/-- C5 amended: the plan scan collects group 1 of each regex match — a
pipe, a non-empty pipe-free cell, a pipe, an identifier-shaped token
(case-insensitive), a pipe, then one of the acceptance markers as a
case-insensitive prefix of the immediately following cell — anywhere in
the text.  Rows whose status cell resolves to no marker, such as the
`rejected` row of scenario C, contribute nothing, so scenario C reports
only `bar-baz`; and every collected token is a non-empty string of
(case-insensitive) identifier characters. -/
theorem plan_scan_amended :
    scanPlanIds "| Foo | bar-baz | matched |\x0a| Foo | old-thing | rejected |\x0a"
        = ["bar-baz"]
    ∧ scanPlanIds "| a | b | c | matched |" = ["c"]
    ∧ (∀ s : String, ∀ tok ∈ scanPlanIds s, tok ≠ "" ∧ tok.data.all isIdCharCI = true) :=
  ⟨rfl, rfl, fun _ _ h => scanPlanIds_tok h⟩

/-- Witness for `plan_scan_amended` at scenario C's document. -/
theorem plan_scan_amended_witness :
    "bar-baz" ≠ "" ∧ "bar-baz".data.all isIdCharCI = true :=
  plan_scan_amended.2.2 "| Foo | bar-baz | matched |\x0a| Foo | old-thing | rejected |\x0a"
    "bar-baz" (by decide)

/-- C6 counterexample: the valid set is not confined to the lexical rule
`[a-z0-9-]+`.  An index entry id is added after a truthiness test only, so
the uppercase string `FOO` becomes a member even though it does not match
the rule. -/
theorem lexical_rule_counterexample :
    load_valid_pattern_ids ⟨some (some (JValue.jobj
        [("patterns", JValue.jarr [JValue.jobj [("id", JValue.jstr "FOO")]])])), none⟩
      = Except.ok [JValue.jstr "FOO"]
    ∧ isLexIdStr "FOO" = false :=
  ⟨rfl, rfl⟩

/-- C6 amended: the lexical rule holds for every identifier produced by
the regex-constrained extractors — the `- id:`, `pattern_id:` and
`provider:` line scans and the entry-file `id:` line — while the plan-table
scan guarantees it only up to letter case (its `IGNORECASE` flag also
applies to the captured class); identifiers arriving from the index
entries, the entry-file base names or the inline `from_catalog` elements
are not constrained by the rule at all. -/
theorem lexical_rule_amended (s : String) :
    (∀ tok ∈ scanDashIds s, isLexIdStr tok = true)
    ∧ (∀ tok ∈ scanKeyIds "pattern_id:" s, isLexIdStr tok = true)
    ∧ (∀ tok ∈ scanKeyIds "provider:" s, isLexIdStr tok = true)
    ∧ (∀ tok, searchBareId s = some tok → isLexIdStr tok = true)
    ∧ (∀ tok ∈ scanPlanIds s, tok ≠ "" ∧ tok.data.all isIdCharCI = true) :=
  ⟨fun _ h => scanDashIds_tok h, fun _ h => scanKeyIds_tok h, fun _ h => scanKeyIds_tok h,
    fun _ h => searchBareId_tok h, fun _ h => scanPlanIds_tok h⟩

/-- Witness for `lexical_rule_amended` at a document exercising every
extractor. -/
theorem lexical_rule_amended_witness :
    isLexIdStr "abc" = true ∧ isLexIdStr "de" = true ∧ isLexIdStr "fg" = true
    ∧ isLexIdStr "hi" = true ∧ ("j9" ≠ "" ∧ "j9".data.all isIdCharCI = true) :=
  ⟨(lexical_rule_amended "id: hi\x0a- id: abc\x0apattern_id: de\x0aprovider: fg\x0a| x | j9 | matched |\x0a").1
      "abc" (by decide),
   (lexical_rule_amended "id: hi\x0a- id: abc\x0apattern_id: de\x0aprovider: fg\x0a| x | j9 | matched |\x0a").2.1
      "de" (by decide),
   (lexical_rule_amended "id: hi\x0a- id: abc\x0apattern_id: de\x0aprovider: fg\x0a| x | j9 | matched |\x0a").2.2.1
      "fg" (by decide),
   (lexical_rule_amended "id: hi\x0a- id: abc\x0apattern_id: de\x0aprovider: fg\x0a| x | j9 | matched |\x0a").2.2.2.1
      "hi" (by decide),
   (lexical_rule_amended "id: hi\x0a- id: abc\x0apattern_id: de\x0aprovider: fg\x0a| x | j9 | matched |\x0a").2.2.2.2
      "j9" (by decide)⟩

/-- C9: within one dependent-configuration document the collected
references are grouped by context pattern — all `- id:` matches first (in
textual order), then all `pattern_id:` matches, then all `provider:`
matches, then the inline `from_catalog` elements — and a document whose
patterns interleave textually still yields the grouped order, tagged with
the source document. -/
theorem manifest_grouping :
    (∀ s : String,
        manifestDocIds s
          = scanDashIds s ++ scanKeyIds "pattern_id:" s
            ++ scanKeyIds "provider:" s ++ scanFromCatalog s)
    ∧ manifestDocIds
        "pattern_id: p-1\x0a- id: a-1\x0aprovider: v-1\x0afrom_catalog: [f-1, f-2]\x0a- id: a-2\x0apattern_id: p-2\x0a"
        = ["a-1", "a-2", "p-1", "p-2", "v-1", "f-1", "f-2"]
    ∧ collect_used_pattern_ids_from_manifests
        (some [⟨"manifests/app.yaml", Except.ok
          "pattern_id: p-1\x0a- id: a-1\x0aprovider: v-1\x0afrom_catalog: [f-1, f-2]\x0a- id: a-2\x0apattern_id: p-2\x0a"⟩])
        = [("manifests/app.yaml", "a-1"), ("manifests/app.yaml", "a-2"),
           ("manifests/app.yaml", "p-1"), ("manifests/app.yaml", "p-2"),
           ("manifests/app.yaml", "v-1"), ("manifests/app.yaml", "f-1"),
           ("manifests/app.yaml", "f-2")] :=
  ⟨fun _ => rfl, rfl, rfl⟩

/-! ### No empty identifier -/

theorem pathStem_ne_empty {name : String} (h : name ≠ "") : pathStem name ≠ "" := by
  unfold pathStem
  split
  · rename_i i hd
    split
    · rename_i hb
      obtain ⟨hb1, hb2⟩ := hb
      refine stringMk_ne_empty ?_
      intro htake
      have hlen := congrArg List.length htake
      rw [List.length_take, List.length_nil] at hlen
      omega
    · exact h
  · exact h

theorem entryIdOf_ne_emptyStr {p pid : JValue} (h : entryIdOf p = some pid) :
    pid ≠ JValue.jstr "" := by
  unfold entryIdOf at h
  split at h
  · rename_i pid0 hg
    split at h
    · rename_i ht
      cases h
      intro he
      rw [he] at ht
      simp [JValue.truthy] at ht
    · exact Option.noConfusion h
  · exact Option.noConfusion h

theorem catContrib_mem {cat x : JValue} (h : x ∈ catContrib cat) :
    ∃ p, entryIdOf p = some x := by
  unfold catContrib at h
  split at h
  · split at h
    · rw [List.mem_filterMap] at h
      obtain ⟨p, _, hp⟩ := h
      exact ⟨p, hp⟩
    · cases h
  · cases h

theorem scanFromCatalog_tok {s tok : String} (h : tok ∈ scanFromCatalog s) :
    tok ≠ "" := by
  unfold scanFromCatalog at h
  rw [List.mem_flatMap] at h
  obtain ⟨grp, _, hi⟩ := h
  unfold fromCatalogItems at hi
  rw [List.mem_filter] at hi
  exact of_decide_eq_true hi.2

theorem manifestDocIds_ne_empty {s tok : String} (h : tok ∈ manifestDocIds s) :
    tok ≠ "" := by
  unfold manifestDocIds at h
  rcases List.mem_append.mp h with h | h
  · rcases List.mem_append.mp h with h | h
    · rcases List.mem_append.mp h with h | h
      · exact of_decide_eq_true (Bool.and_eq_true .. ▸ scanDashIds_tok h).1
      · exact of_decide_eq_true (Bool.and_eq_true .. ▸ scanKeyIds_tok h).1
    · exact of_decide_eq_true (Bool.and_eq_true .. ▸ scanKeyIds_tok h).1
  · exact scanFromCatalog_tok h

/-- C10: no empty identifier enters the pipeline.  For every snapshot whose
entry files have non-empty names (as `rglob("*.yaml")` guarantees) and
whose load completes, the empty string is not a member of the valid set —
index entries with a missing, `None` or empty id are skipped, stems of
non-empty names are non-empty, and id-line tokens are non-empty — and every
collected reference (list-item, `pattern_id:`, `provider:`, stripped
`from_catalog` element, plan-table token) carries a non-empty identifier. -/
theorem no_empty_identifier (t : FsTree) (ids : List JValue)
    (hn : ∀ files, t.catalog.patternsDir = some files → ∀ f ∈ files, f.name ≠ "")
    (h : load_valid_pattern_ids t.catalog = Except.ok ids) :
    JValue.jstr "" ∉ ids ∧ (∀ r ∈ collectAllRefs t, r.2 ≠ "") := by
  constructor
  · intro hmem
    rcases (load_ok_mem h (JValue.jstr "")).mp hmem with hs | hs | hs | hs
    · unfold streamIndexTop at hs
      split at hs
      · unfold topStreamData at hs
        split at hs
        · rw [List.mem_filterMap] at hs
          obtain ⟨p, _, hp⟩ := hs
          exact entryIdOf_ne_emptyStr hp rfl
        · cases hs
      · cases hs
    · unfold streamIndexCats at hs
      split at hs
      · unfold catStreamData at hs
        split at hs
        · split at hs
          · rw [List.mem_flatMap] at hs
            obtain ⟨cat, _, hc⟩ := hs
            obtain ⟨p, hp⟩ := catContrib_mem hc
            exact entryIdOf_ne_emptyStr hp rfl
          · cases hs
        · cases hs
      · cases hs
    · unfold streamStems at hs
      split at hs
      · rename_i files hdf
        rw [List.mem_map] at hs
        obtain ⟨f, hf, he⟩ := hs
        injection he with h1
        exact pathStem_ne_empty (hn files hdf f hf) h1
      · cases hs
    · unfold streamIdLines at hs
      split at hs
      · rw [List.mem_filterMap] at hs
        obtain ⟨f, _, hf⟩ := hs
        split at hf
        · rename_i content hc
          rcases Option.map_eq_some'.mp hf with ⟨tok, htok, he⟩
          have := searchBareId_tok htok
          injection he with h1
          rw [h1] at this
          simp [isLexIdStr] at this
        · exact Option.noConfusion hf
      · cases hs
  · intro r hr
    unfold collectAllRefs at hr
    rcases List.mem_append.mp hr with hm | hp
    · unfold collect_used_pattern_ids_from_manifests at hm
      split at hm
      · cases hm
      · rw [List.mem_flatMap] at hm
        obtain ⟨d, _, hd⟩ := hm
        split at hd
        · cases hd
        · rw [List.mem_map] at hd
          obtain ⟨pid, hpid, rfl⟩ := hd
          exact manifestDocIds_ne_empty hpid
    · unfold collect_used_pattern_ids_from_plans at hp
      split at hp
      · cases hp
      · rw [List.mem_flatMap] at hp
        obtain ⟨d, _, hd⟩ := hp
        split at hd
        · cases hd
        · rw [List.mem_map] at hd
          obtain ⟨pid, hpid, rfl⟩ := hd
          exact (scanPlanIds_tok hpid).1

/-- Witness for `no_empty_identifier` at a concrete snapshot with one entry
file and one manifest. -/
theorem no_empty_identifier_witness :
    JValue.jstr "" ∉ [JValue.jstr "a", JValue.jstr "abc"] :=
  (no_empty_identifier
    ⟨⟨none, some [⟨"a.yaml", Except.ok "id: abc\x0a"⟩]⟩,
      some [⟨"manifests/m.yaml", Except.ok "- id: abc\x0a"⟩], none⟩
    [JValue.jstr "a", JValue.jstr "abc"]
    (by
      rintro files hf f hfm
      cases hf
      rcases List.mem_singleton.mp hfm with rfl
      decide)
    rfl).1

/-! ### The Reporter -/

/-- The sorted string view of an all-string valid set (what
`sorted(valid_ids)` computes there). -/
def sortedStrs (xs : List JValue) : List String :=
  List.insertionSort (fun a b : String => a ≤ b) (strVals xs)

theorem pySorted_all_str {xs : List JValue} (h : xs.all JValue.isStr = true) :
    pySorted xs = Except.ok ((sortedStrs xs).map JValue.jstr) := by
  cases xs with
  | nil => rfl
  | cons x t =>
    cases t with
    | nil =>
      rw [List.all_cons, Bool.and_eq_true] at h
      have hx : x = JValue.jstr x.strOf := by
        cases x <;> simp_all [JValue.isStr, JValue.strOf]
      show Except.ok [x] = Except.ok [JValue.jstr x.strOf]
      rw [← hx]
    | cons y t2 =>
      show (if (x :: y :: t2).all JValue.isStr = true then
          Except.ok ((List.insertionSort (fun a b : String => a ≤ b)
            (strVals (x :: y :: t2))).map JValue.jstr)
        else if (x :: y :: t2).all JValue.numKeyOk = true then
          Except.ok (List.insertionSort (fun a b : JValue => a.numKey ≤ b.numKey) (x :: y :: t2))
        else Except.error PyErr.typeError) = _
      rw [if_pos h]
      rfl

theorem computeErrors_congr {v₁ v₂ : List JValue} (hmem : ∀ x, x ∈ v₁ ↔ x ∈ v₂)
    (used : List (String × String)) :
    computeErrors v₁ used = computeErrors v₂ used := by
  induction used with
  | nil => rfl
  | cons r rest ih =>
    simp only [computeErrors]
    have hcond : v₁.any (JValue.scalarEq (JValue.jstr r.2))
        = v₂.any (JValue.scalarEq (JValue.jstr r.2)) := by
      have hiff := (anyScalarEq_iff (jstr_isScalar r.2) v₁).trans
        ((hmem (JValue.jstr r.2)).trans (anyScalarEq_iff (jstr_isScalar r.2) v₂).symm)
      cases ha : v₁.any (JValue.scalarEq (JValue.jstr r.2)) <;>
        cases hb : v₂.any (JValue.scalarEq (JValue.jstr r.2)) <;> simp_all
    rw [hcond, ih]

theorem sortedStrs_eq_of_perm {v₁ v₂ : List JValue} (hp : v₁.Perm v₂) :
    sortedStrs v₁ = sortedStrs v₂ := by
  unfold sortedStrs strVals
  have hps : (v₁.map JValue.strOf).Perm (v₂.map JValue.strOf) := hp.map _
  exact List.eq_of_perm_of_sorted
    ((List.perm_insertionSort _ _).trans (hps.trans (List.perm_insertionSort _ _).symm))
    (List.sorted_insertionSort _ _) (List.sorted_insertionSort _ _)

/-- C7: the report distinguishes the required cases.  With zero references
it emits the distinct nothing-to-validate success line; with zero failures
and at least one reference it emits the one-line success summary stating
the count checked; with failures it emits the error header, one line per
failure giving the identifier and its source document's root-relative
path, a blank line, then the preview header, the first 20 valid
identifiers in sorted order, and the remainder count line exactly when
more than 20 exist.  (The valid set is assumed all-string, which every
lexical-rule-conforming catalog satisfies; otherwise `sorted` itself can
raise, see C6.) -/
theorem report_cases (used : List (String × String)) (valid : List JValue)
    (hstr : valid.all JValue.isStr = true) :
    (used = [] → renderReport used valid
        = Except.ok (["[OK] No pattern ID references found to validate."], 0))
    ∧ (computeErrors valid used = [] → used ≠ [] →
        renderReport used valid
          = Except.ok (["[OK] All " ++ toString used.length
              ++ " pattern ID references are valid."], 0))
    ∧ (computeErrors valid used ≠ [] →
        renderReport used valid = Except.ok
          ((("[ERROR] Unknown pattern IDs found:"
              :: (computeErrors valid used).map
                (fun e => "  - \x27" ++ e.2 ++ "\x27 in " ++ e.1))
            ++ [""] ++ ["Available pattern IDs:"]
            ++ ((sortedStrs valid).take 20).map (fun s => "  - " ++ s)
            ++ (if valid.length > 20 then
                  ["  ... and " ++ toString (valid.length - 20) ++ " more"]
                else [])), 1)) := by
  refine ⟨?_, ?_, ?_⟩
  · rintro rfl
    rfl
  · intro herr hne
    cases used with
    | nil => exact absurd rfl hne
    | cons r rest =>
      unfold renderReport
      rw [herr]
      rfl
  · intro herr
    unfold renderReport
    rw [if_neg (fun hc => herr (List.isEmpty_iff.mp hc)), pySorted_all_str hstr, ok_bind,
      ← List.map_take, List.map_map]
    rfl

/-- Witness for `report_cases` at a concrete failing run. -/
theorem report_cases_witness :
    renderReport [("specs/x/plan.md", "bar-baz")] [JValue.jstr "ok-id"]
      = Except.ok (["[ERROR] Unknown pattern IDs found:",
          "  - \x27bar-baz\x27 in specs/x/plan.md", "", "Available pattern IDs:",
          "  - ok-id"], 1) :=
  (report_cases [("specs/x/plan.md", "bar-baz")] [JValue.jstr "ok-id"] rfl).2.2
    (by decide)

/-- C8: the pipeline is deterministic.  The run is a pure function of the
file-tree snapshot (traversal order is part of the snapshot, and Python's
`sorted` makes the preview canonical), and the only intermediate whose
representation the language does not fix — the valid-identifier set — cannot
leak its insertion or iteration order into the report: any two duplicate-free
representations of the same set yield byte-identical report lines and the
same exit code. -/
theorem report_repr_independent (used : List (String × String)) (v₁ v₂ : List JValue)
    (h₁ : v₁.Nodup) (h₂ : v₂.Nodup) (hmem : ∀ x, x ∈ v₁ ↔ x ∈ v₂)
    (hstr : v₁.all JValue.isStr = true) :
    renderReport used v₁ = renderReport used v₂ := by
  have hp : v₁.Perm v₂ := (List.perm_ext_iff_of_nodup h₁ h₂).mpr hmem
  have hstr₂ : v₂.all JValue.isStr = true := by
    rw [List.all_eq_true] at hstr ⊢
    intro x hx
    exact hstr x ((hmem x).mpr hx)
  unfold renderReport
  rw [computeErrors_congr hmem used, pySorted_all_str hstr, pySorted_all_str hstr₂,
    sortedStrs_eq_of_perm hp, hp.length_eq]

/-- Witness for `report_repr_independent`: two insertion orders of the same
two-element set produce the same report. -/
theorem report_repr_independent_witness :
    renderReport [("m.yaml", "zz")] [JValue.jstr "b", JValue.jstr "a"]
      = renderReport [("m.yaml", "zz")] [JValue.jstr "a", JValue.jstr "b"] :=
  report_repr_independent [("m.yaml", "zz")]
    [JValue.jstr "b", JValue.jstr "a"] [JValue.jstr "a", JValue.jstr "b"]
    (by simp) (by simp) (by intro x; simp; exact Or.comm) rfl
